import Mathlib

/-!
Shallow embedding of the `nist_lookup` repository (NIST X-ray optical
constants lookup) and proofs about its behaviour.

Sources embedded:
* `nist_lookup/nist_lookup.py` — `check_page`, `get_density`, `parse_table`,
  `calculate_coefficients`;
* `nist_lookup/materials.py` — `get_materials`, `material_mu`,
  `material_mu_components`, `material_get`, `material_add`;
* `nist_lookup/xraydb_plugin.py` — `Scatterer`, `xray_delta_beta`.

Numeric values are modelled as exact rationals (`ℚ`): every Python float is a
rational, and the claims under study are structural (control flow, raised
exceptions, algebraic shape), not about rounding.  External capabilities
(the `xraydb` atomic-data backend) are parameters.  The chemical-formula
parser `chemparse` lives in `nist_lookup/chemparser.py`, which is not among
the provided sources; it is modelled from the spec (§4.1) below.
-/

namespace NistLookup

/-- Python exception outcomes observable in the embedded code.  `nameError`
models `UnboundLocalError`/`NameError` (reading a never-assigned local),
`valueError` a failed `float(...)` conversion, `zeroDivisionError` a scalar
float division by zero, `warningExc` a raised builtin `Warning`, and
`nistPageError` the repository's `NistPageError`. -/
inductive PyErr where
  | nameError
  | valueError
  | zeroDivisionError
  | warningExc
  | nistPageError
  deriving DecidableEq, Repr

/-- `leadsWith n h` is true when the list `n` is an initial segment of `h`
(character-by-character comparison, as Python substring search does). -/
def leadsWith : List Char → List Char → Bool
  | [], _ => true
  | _ :: _, [] => false
  | a :: as, b :: bs => a == b && leadsWith as bs

/-- `hasSub n h` is true when `n` occurs contiguously inside `h`: the model of
Python's `needle in haystack` for strings. -/
def hasSub (needle : List Char) : List Char → Bool
  | [] => leadsWith needle []
  | c :: rest => leadsWith needle (c :: rest) || hasSub needle rest

/-- Python's `needle in haystack` on strings. -/
def strContainsSub (hay needle : String) : Bool :=
  hasSub needle.data hay.data

/-- Split a character list at newline characters: the model of Python
`str.splitlines()` for the `\n`-separated texts considered here. -/
def splitLinesCh : List Char → List (List Char)
  | [] => [[]]
  | '\n' :: rest => [] :: splitLinesCh rest
  | c :: rest =>
    match splitLinesCh rest with
    | [] => [[c]]
    | l :: ls => (c :: l) :: ls

/-- Helper for `pySplitCh`: `cur` is the (reversed) token being accumulated. -/
def pySplitChAux (cur : List Char) : List Char → List (List Char)
  | [] => if cur.isEmpty then [] else [cur.reverse]
  | c :: rest =>
    if c.isWhitespace then
      if cur.isEmpty then pySplitChAux [] rest
      else cur.reverse :: pySplitChAux [] rest
    else pySplitChAux (c :: cur) rest

/-- Python `str.split()` with no argument: maximal whitespace runs separate
tokens and no empty token is produced. -/
def pySplitCh (cs : List Char) : List (List Char) :=
  pySplitChAux [] cs

/-- Strip leading and trailing whitespace, Python `str.strip()`. -/
def trimCh (cs : List Char) : List Char :=
  ((cs.dropWhile Char.isWhitespace).reverse.dropWhile Char.isWhitespace).reverse

/-- Numeric value of a list of decimal digit characters (most significant
first), as accumulated left to right. -/
def digitsVal (ds : List Char) : ℕ :=
  ds.foldl (fun acc c => 10 * acc + (c.toNat - 48)) 0

/-- Split off a leading run of decimal digits. -/
def takeDigits (cs : List Char) : List Char × List Char :=
  (cs.takeWhile Char.isDigit, cs.dropWhile Char.isDigit)

/-- Optional leading `+`/`-` sign: returns the sign as `1` or `-1` and the
rest of the characters. -/
def takeSign : List Char → ℤ × List Char
  | '+' :: rest => (1, rest)
  | '-' :: rest => (-1, rest)
  | cs => (1, cs)

/-- Model of Python's `float(s)` on finite decimal literals: optional sign,
decimal digits with an optional fractional part (at least one digit in
total), and an optional exponent.  `none` models a raised `ValueError`.
Surrounding whitespace is stripped as `float` does; `inf`/`nan` spellings are
not needed by any input considered here and are rejected. -/
def parseFloat (s : String) : Option ℚ :=
  let cs := trimCh s.data
  let (sign, cs) := takeSign cs
  let (ip, cs) := takeDigits cs
  let (fp, cs) :=
    match cs with
    | '.' :: rest => takeDigits rest
    | _ => ([], cs)
  if ip.isEmpty && fp.isEmpty then none
  else
    let mantissa : ℚ :=
      (sign : ℚ) * ((digitsVal ip : ℚ) + (digitsVal fp : ℚ) / (10 : ℚ) ^ fp.length)
    match cs with
    | [] => some mantissa
    | 'e' :: rest =>
      let (es, rest) := takeSign rest
      let (ed, rest) := takeDigits rest
      if ed.isEmpty || !rest.isEmpty then none
      else some (mantissa * (10 : ℚ) ^ (es * (digitsVal ed : ℤ)))
    | 'E' :: rest =>
      let (es, rest) := takeSign rest
      let (ed, rest) := takeDigits rest
      if ed.isEmpty || !rest.isEmpty then none
      else some (mantissa * (10 : ℚ) ^ (es * (digitsVal ed : ℤ)))
    | _ => none

/-- `scipy.constants.N_A`, Avogadro's number (exact by SI definition). -/
def N_A : ℚ := 602214076 * (10 : ℚ) ^ 15

/-- `check_page` (nist_lookup/nist_lookup.py:39-44): raises `NistPageError`
when the page text contains `"Error"`, otherwise falls through, leaving the
text that the pipeline continues with untouched.  The `ok` branch carries
that unchanged text. -/
def check_page (text : String) : Except PyErr String :=
  if strContainsSub text "Error" then .error .nistPageError
  else .ok text

/-- `get_density` (nist_lookup/nist_lookup.py:47-57): scan the lines for the
first one containing `"Nominal density"`; its first whitespace token is the
atomic weight and its last the density; return
`N_A * density / atomic_weight`.  When no line matches, the Python function
falls off the loop and reads the never-assigned local
`atoms_per_unit_volume`: an `UnboundLocalError`, modelled as
`.error .nameError`.  A token that `float` cannot parse is a `ValueError`,
and atomic weight `0` makes the final division raise `ZeroDivisionError`. -/
def get_density (text : String) : Except PyErr ℚ :=
  match (splitLinesCh text.data).find? (fun l => hasSub "Nominal density".data l) with
  | none => .error .nameError
  | some line =>
    let toks := pySplitCh line
    match parseFloat ⟨toks.headD []⟩ with
    | none => .error .valueError
    | some atomic_weight =>
      match parseFloat ⟨toks.getLastD []⟩ with
      | none => .error .valueError
      | some density =>
        if atomic_weight = 0 then .error .zeroDivisionError
        else .ok (N_A * density / atomic_weight)

/-- `parse_table` (nist_lookup/nist_lookup.py:60-76).  The input is modelled
after HTML soup extraction: the list of `<tr>` rows, each the list of its
`<td>` cell texts.  Rows without cells are skipped; a kept row's cells are
`cols[:3] + [cols[-1]]`.  The inner loop body is
`table_row.append(content); table.append(table_row)`: the accumulator list
receives one reference to `table_row` per cell, all aliases of the same
list, so the final value holds `len(cols)` copies of the completed row. -/
def parse_table (rows : List (List String)) : List (List String) :=
  match rows with
  | [] => []
  | cols :: rest =>
    if cols.isEmpty then parse_table rest
    else
      let kept := cols.take 3 ++ [cols.getLastD ""]
      List.replicate kept.length kept ++ parse_table rest

/-- Optional numeric multiplier after an atom or group: decimal digits with
an optional fractional part (`2`, `0.5`, `1.9`).  Returns the multiplier
(default `1` when no digits are present) and the remaining characters. -/
def parseMult (cs : List Char) : ℚ × List Char :=
  let (ip, rest) := takeDigits cs
  match rest with
  | '.' :: rest2 =>
    let (fp, rest3) := takeDigits rest2
    if ip.isEmpty && fp.isEmpty then (1, cs)
    else ((digitsVal ip : ℚ) + (digitsVal fp : ℚ) / (10 : ℚ) ^ fp.length, rest3)
  | _ =>
    if ip.isEmpty then (1, cs)
    else ((digitsVal ip : ℚ), rest)

/-- Add `q` to the coefficient of `sym` in an insertion-ordered composition,
as Python dict accumulation does: repeated symbols are summed, first
occurrence fixes the position. -/
def chemAdd (sym : String) (q : ℚ) : List (String × ℚ) → List (String × ℚ)
  | [] => [(sym, q)]
  | (s, v) :: rest =>
    if s = sym then (s, v + q) :: rest else (s, v) :: chemAdd sym q rest

/-- Merge a (scaled) group composition into the enclosing accumulator. -/
def chemMerge (acc : List (String × ℚ)) (grp : List (String × ℚ)) (mult : ℚ) :
    List (String × ℚ) :=
  grp.foldl (fun a p => chemAdd p.1 (p.2 * mult) a) acc

/-- Modelled from the spec: the chemical-formula parser `chemparse` lives in
`nist_lookup/chemparser.py`, which is not among the provided sources.
Spec §4.1: an element token is one uppercase letter optionally followed by
one lowercase letter; an optional numeric literal (integer or decimal) after
an atom or group is its multiplier (default 1); a parenthesized group may
contain element/group sequences and its multiplier applies to every symbol
inside; repeated symbols are summed; it fails on an invalid symbol,
unbalanced parentheses, empty input, or a multiplier with no preceding
atom/group.  (The check that a symbol names one of the 98 supported elements
is not modelled; no claim depends on it.)  `fuel` decreases on every step and
is initialised above the input length, so it never runs out on real input. -/
def chemSeq : ℕ → List Char → List (String × ℚ) →
    Except Unit (List (String × ℚ) × List Char)
  | 0, _, _ => .error ()
  | _ + 1, [], acc => .ok (acc, [])
  | _ + 1, ')' :: rest, acc => .ok (acc, ')' :: rest)
  | fuel + 1, '(' :: rest, acc =>
    match chemSeq fuel rest [] with
    | .error e => .error e
    | .ok (inner, rest2) =>
      match rest2 with
      | ')' :: rest3 =>
        let (mult, rest4) := parseMult rest3
        chemSeq fuel rest4 (chemMerge acc inner mult)
      | _ => .error ()
  | fuel + 1, c :: rest, acc =>
    if c.isUpper then
      let (sym, rest1) :=
        match rest with
        | c2 :: rest2 => if c2.isLower then (⟨[c, c2]⟩, rest2) else (⟨[c]⟩, rest)
        | [] => ((⟨[c]⟩ : String), [])
      let (mult, rest2) := parseMult rest1
      chemSeq fuel rest2 (chemAdd sym mult acc)
    else .error ()

/-- Modelled from the spec (§4.1): `chemparse` on a whole formula.  Empty
input and leftover characters (an unmatched `)`) are errors. -/
def chemparse (formula : String) : Except Unit (List (String × ℚ)) :=
  if formula.data.isEmpty then .error ()
  else
    match chemSeq (formula.data.length + 1) formula.data [] with
    | .error e => .error e
    | .ok (acc, []) => .ok acc
    | .ok (_, _ :: _) => .error ()

/-- Total wrapper around `chemparse` used to instantiate the composition
parameter of functions whose source calls `chemparse` directly; all formulas
appearing in the claims parse successfully, so the default never shows. -/
def chemparseTotal (formula : String) : List (String × ℚ) :=
  match chemparse formula with
  | .ok l => l
  | .error _ => []

/-- A data row of the parsed ScatteringTable: energy (keV), f1, f2 (e/atom)
and wavelength (in the table's native unit, nm).  `calculate_coefficients`
indexes its rows at positions 1, 2 and 3, so rows are four cells wide. -/
structure Row where
  energy : ℚ
  f1 : ℚ
  f2 : ℚ
  wavelength : ℚ
  deriving DecidableEq, Repr

/-- `calculate_coefficients` (nist_lookup/nist_lookup.py:79-107), numeric
content of the text it prints: per input row, one output line holding the
row's four cells followed by the computed `delta` and `beta`, with
`factor = r_e / (2*pi) * density` (the `density` argument is the
atoms-per-unit-volume value from `get_density`), `wavelength` scaled by
`1e-7` into cm, `delta = factor * wavelength^2 * f1` and
`beta = factor * wavelength^2 * f2`.  `r_e` (the classical electron radius
in cm, from `scipy.constants`) and `pi` (the float `const.pi`) are
parameters. -/
def calculate_coefficients (r_e piv n : ℚ) : List Row → List (List ℚ)
  | [] => []
  | row :: rest =>
    let factor := r_e / (2 * piv) * n
    let wavelength := row.wavelength * (1 / (10 : ℚ) ^ 7)
    let delta := factor * wavelength * wavelength * row.f1
    let beta := factor * wavelength * wavelength * row.f2
    [row.energy, row.f1, row.f2, row.wavelength, delta, beta] ::
      calculate_coefficients r_e piv n rest

/-- Split a character list at every occurrence of the character `sep`:
Python `str.split('|')` for the one-character separator used by the
material database. -/
def splitOnCh (sep : Char) : List Char → List (List Char)
  | [] => [[]]
  | c :: rest =>
    if c = sep then [] :: splitOnCh sep rest
    else
      match splitOnCh sep rest with
      | [] => [[c]]
      | l :: ls => (c :: l) :: ls

/-- Python `str.lower()` (ASCII case folding suffices for material names). -/
def pyLower (s : String) : String :=
  ⟨s.data.map Char.toLower⟩

/-- Python `str.replace(' ', '')`: remove every space character. -/
def removeSpaces (cs : List Char) : List Char :=
  cs.filter (fun c => c ≠ ' ')

/-- Python dict assignment order for the materials dict: a later binding of
the same key overwrites an earlier one, so lookup returns the most recent
binding. -/
def assocGet (m : List (String × String × ℚ)) (k : String) : Option (String × ℚ) :=
  (m.reverse.find? (fun p => p.1 = k)).map (fun p => p.2)

/-- Loop body of `get_materials` (materials.py:8-22): strip each line, keep
those longer than two characters not starting with `#`, split on `|` into
exactly three fields (a different field count is a `ValueError` from tuple
unpacking), strip the fields, remove spaces from the formula, parse the
density with `float`, and bind the lower-cased name. -/
def getMaterialsAux : List String → List (String × String × ℚ) →
    Except PyErr (List (String × String × ℚ))
  | [], mat => .ok mat
  | line :: rest, mat =>
    let l := trimCh line.data
    if 2 < l.length && !(leadsWith ['#'] l) then
      match splitOnCh '|' l with
      | [n, f, d] =>
        match parseFloat ⟨trimCh d⟩ with
        | none => .error .valueError
        | some den =>
          getMaterialsAux rest
            (mat ++ [(pyLower ⟨trimCh n⟩, (⟨removeSpaces (trimCh f)⟩, den))])
      | _ => .error .valueError
    else getMaterialsAux rest mat

/-- `get_materials` (materials.py:8-22).  The backing file `materials.dat` is
modelled as the list of its lines (without newline terminators); a missing
file reads as the empty list. -/
def get_materials (store : List String) : Except PyErr (List (String × String × ℚ)) :=
  getMaterialsAux store []

/-- `material_get` (materials.py:112-114): case-insensitive lookup, `none`
for an unknown name. -/
def material_get (store : List String) (name : String) :
    Except PyErr (Option (String × ℚ)) :=
  match get_materials store with
  | .error e => .error e
  | .ok mats => .ok (assocGet mats (pyLower name))

/-- The two comment lines `material_add` starts a fresh `materials.dat`
with (materials.py:129-130). -/
def defaultHeader : List String :=
  ["# user-specific database of materials", "# name, formula, density"]

/-- `material_add` (materials.py:117-136): read the current database (its
parse errors propagate), strip spaces from the formula, and append the line
`" name | formula | density"` to the file (after the default header when the
file does not yet exist).  The `%g` rendering of the density is the
parameter `fmtG`; theorems that need the stored density back assume the
`float(fmtG d)` round trip. -/
def material_add (fmtG : ℚ → String) (store : List String)
    (name formula : String) (density : ℚ) : Except PyErr (List String) :=
  match get_materials store with
  | .error e => .error e
  | .ok _ =>
    let f := String.mk (removeSpaces formula.data)
    .ok ((if store.isEmpty then defaultHeader else store) ++
      [" " ++ name ++ " | " ++ f ++ " | " ++ fmtG density])

/-- Accumulation loop shared by `material_mu` (materials.py:62-67): for each
element with stoichiometric fraction `frac`, `mass = frac * atomic_mass`,
`mu += mass * mu_elam(elem, energy, kind)` and `mass_tot += mass`.  The
accumulator is `(mass_tot, mu)`. -/
def muLoop (am : String → ℚ) (mu_elam : String → ℚ → String → ℚ)
    (energy : ℚ) (kind : String) :
    List (String × ℚ) → ℚ × ℚ → ℚ × ℚ
  | [], acc => acc
  | (elem, frac) :: rest, (mass_tot, mu) =>
    let mass := frac * am elem
    muLoop am mu_elam energy kind rest
      (mass_tot + mass, mu + mass * mu_elam elem energy kind)

/-- `material_mu` (materials.py:25-67).  `chem` stands for the imported
`chemparse`, `am` for `atomic_mass` and `mu_elam` for the Elam-table lookup
(external `xraydb` capability).  An unknown name with no density raises the
builtin `Warning` (materials.py:57); a known name overwrites both formula
and the caller's density with the stored pair (materials.py:60); the result
is `density * mu / mass_tot`, a `ZeroDivisionError` when the accumulated
mass is zero. -/
def material_mu (chem : String → List (String × ℚ)) (am : String → ℚ)
    (mu_elam : String → ℚ → String → ℚ) (store : List String)
    (name : String) (energy : ℚ) (density : Option ℚ) (kind : String) :
    Except PyErr ℚ :=
  match get_materials store with
  | .error e => .error e
  | .ok mats =>
    let resolved : Except PyErr (String × ℚ) :=
      match assocGet mats (pyLower name), density with
      | none, none => .error .warningExc
      | none, some d => .ok (name, d)
      | some (f, d), _ => .ok (f, d)
    match resolved with
    | .error e => .error e
    | .ok (formula, d) =>
      let (mass_tot, mu) := muLoop am mu_elam energy kind (chem formula) (0, 0)
      if mass_tot = 0 then .error .zeroDivisionError
      else .ok (d * mu / mass_tot)

/-- Output record of `material_mu_components` (materials.py:102-109):
total mass, the density used, the element list in iteration order, and per
element the `(fraction, atomic mass, mu)` triple. -/
structure MuComponents where
  mass : ℚ
  density : ℚ
  elements : List String
  comp : List (String × (ℚ × ℚ × ℚ))
  deriving DecidableEq, Repr

/-- Accumulation loop of `material_mu_components` (materials.py:103-108). -/
def muCompLoop (am : String → ℚ) (mu_elam : String → ℚ → String → ℚ)
    (energy : ℚ) (kind : String) :
    List (String × ℚ) → MuComponents → MuComponents
  | [], out => out
  | (atom, frac) :: rest, out =>
    let mass := am atom
    let mu := mu_elam atom energy kind
    muCompLoop am mu_elam energy kind rest
      { out with
        mass := out.mass + frac * mass
        elements := out.elements ++ [atom]
        comp := out.comp ++ [(atom, (frac, mass, mu))] }

/-- `material_mu_components` (materials.py:70-109): same name/density
resolution as `material_mu` (including the raised builtin `Warning`), then
the per-element breakdown. -/
def material_mu_components (chem : String → List (String × ℚ)) (am : String → ℚ)
    (mu_elam : String → ℚ → String → ℚ) (store : List String)
    (name : String) (energy : ℚ) (density : Option ℚ) (kind : String) :
    Except PyErr MuComponents :=
  match get_materials store with
  | .error e => .error e
  | .ok mats =>
    let resolved : Except PyErr (String × ℚ) :=
      match assocGet mats (pyLower name), density with
      | none, none => .error .warningExc
      | none, some d => .ok (name, d)
      | some (f, d), _ => .ok (f, d)
    match resolved with
    | .error e => .error e
    | .ok (formula, d) =>
      .ok (muCompLoop am mu_elam energy kind (chem formula)
        { mass := 0, density := d, elements := [], comp := [] })

/-- Numeric constants consumed by `xray_delta_beta`:
`R_ELECTRON_CM`, `AVOGADRO`, `PLANCK_HC` (imported from
`nist_lookup/physical_constants.py`, not among the provided sources) and the
float `math.pi`.  Each is some fixed rational; no claim depends on the
values, so they are parameters. -/
structure Consts where
  r_e : ℚ
  avogadro : ℚ
  planck_hc : ℚ
  piv : ℚ
  deriving DecidableEq, Repr

/-- The external `xraydb` Chantler-table capability used by `Scatterer`:
`atomic_number`, `atomic_mass`, and `chantler_data(symbol, energy, column)`
for the four columns read at xraydb_plugin.py:412-418. -/
structure Provider where
  atomic_number : String → ℚ
  atomic_mass : String → ℚ
  chantler_f1 : String → ℚ → ℚ
  chantler_f2 : String → ℚ → ℚ
  chantler_mu_photo : String → ℚ → ℚ
  chantler_mu_total : String → ℚ → ℚ

/-- `Scatterer` (xraydb_plugin.py:403-418): per-element bundle at one
energy.  Note xraydb_plugin.py:415: the tabulated Chantler `f1` is an
anomalous correction, and the element's atomic number is added to it. -/
structure Scatterer where
  number : ℚ
  mass : ℚ
  f1 : ℚ
  f2 : ℚ
  mu_photo : ℚ
  mu_total : ℚ
  deriving DecidableEq, Repr

/-- Build a `Scatterer` from the provider, as `Scatterer.__init__` does. -/
def mkScatterer (p : Provider) (symbol : String) (energy : ℚ) : Scatterer :=
  { number := p.atomic_number symbol
    mass := p.atomic_mass symbol
    f1 := p.chantler_f1 symbol energy + p.atomic_number symbol
    f2 := p.chantler_f2 symbol energy
    mu_photo := p.chantler_mu_photo symbol energy
    mu_total := p.chantler_mu_total symbol energy }

/-- Accumulation loop of `xray_delta_beta` (xraydb_plugin.py:453-459) with
accumulator `(total_mass, delta, beta_photo, beta_total)`; the term
`scat.mu_total / scat.mu_photo` raises `ZeroDivisionError` when
`scat.mu_photo` is zero. -/
def xdbLoop (avogadro density : ℚ) :
    List (ℚ × Scatterer) → ℚ × ℚ × ℚ × ℚ → Except PyErr (ℚ × ℚ × ℚ × ℚ)
  | [], acc => .ok acc
  | (number, scat) :: rest, (total_mass, delta, beta_photo, beta_total) =>
    if scat.mu_photo = 0 then .error .zeroDivisionError
    else
      let weight := density * number * avogadro
      xdbLoop avogadro density rest
        (total_mass + number * scat.mass,
         delta + weight * scat.f1,
         beta_photo + weight * scat.f2,
         beta_total + weight * scat.f2 * (scat.mu_total / scat.mu_photo))

/-- `xray_delta_beta` (xraydb_plugin.py:421-466).  `chem` stands for the
imported `chemparse`.  Every scalar float division of the source is guarded
here by the corresponding `ZeroDivisionError`:
`lamb_cm = 1.e-8 * PLANCK_HC / energy` (line 448),
`scale = lamb_cm^2 * R_ELECTRON_CM / (2*pi*total_mass)` (line 461), the
per-element `mu_total/mu_photo` in the loop, and the returned
`lamb_cm / (4*pi*beta)` (line 466), which the source computes with no zero
test on `beta`. -/
def xray_delta_beta (C : Consts) (p : Provider)
    (chem : String → List (String × ℚ)) (material : String)
    (density energy : ℚ) (photo_only : Bool) : Except PyErr (ℚ × ℚ × ℚ) :=
  if energy = 0 then .error .zeroDivisionError
  else
    let lamb_cm := (1 / (10 : ℚ) ^ 8) * C.planck_hc / energy
    let elements := (chem material).map (fun sn => (sn.2, mkScatterer p sn.1 energy))
    match xdbLoop C.avogadro density elements (0, 0, 0, 0) with
    | .error e => .error e
    | .ok (total_mass, delta0, beta_photo, beta_total) =>
      if 2 * C.piv * total_mass = 0 then .error .zeroDivisionError
      else
        let scale := lamb_cm * lamb_cm * C.r_e / (2 * C.piv * total_mass)
        let delta := delta0 * scale
        let beta := if photo_only then beta_photo * scale else beta_total * scale
        if 4 * C.piv * beta = 0 then .error .zeroDivisionError
        else .ok (delta, beta, lamb_cm / (4 * C.piv * beta))

/-- Equality of embedded outcomes is decidable, so closed runs of the
embedded functions can be settled by evaluation. -/
instance {ε α : Type} [DecidableEq ε] [DecidableEq α] : DecidableEq (Except ε α) := fun a b =>
  match a, b with
  | .ok x, .ok y =>
    if h : x = y then isTrue (by rw [h]) else isFalse (fun he => h (Except.ok.inj he))
  | .ok _, .error _ => isFalse (fun he => Except.noConfusion he)
  | .error _, .ok _ => isFalse (fun he => Except.noConfusion he)
  | .error e, .error f =>
    if h : e = f then isTrue (by rw [h]) else isFalse (fun he => h (Except.error.inj he))

lemma leadsWith_iff (n : List Char) : ∀ h : List Char,
    leadsWith n h = true ↔ ∃ t, h = n ++ t := by
  induction n with
  | nil => intro h; simp [leadsWith]
  | cons a as ih =>
    intro h
    cases h with
    | nil => simp [leadsWith]
    | cons b bs =>
      simp only [leadsWith, Bool.and_eq_true, beq_iff_eq, ih, List.cons_append,
        List.cons.injEq]
      constructor
      · rintro ⟨rfl, t, rfl⟩; exact ⟨t, rfl, rfl⟩
      · rintro ⟨t, rfl, rfl⟩; exact ⟨rfl, t, rfl⟩

lemma hasSub_iff (n : List Char) : ∀ h : List Char,
    hasSub n h = true ↔ ∃ p t, h = p ++ (n ++ t) := by
  intro h
  induction h with
  | nil =>
    simp [hasSub, leadsWith_iff]
  | cons c rest ih =>
    simp only [hasSub, Bool.or_eq_true, leadsWith_iff, ih]
    constructor
    · rintro (⟨t, ht⟩ | ⟨p, t, ht⟩)
      · exact ⟨[], t, ht⟩
      · exact ⟨c :: p, t, by simp [ht]⟩
    · rintro ⟨p, t, ht⟩
      cases p with
      | nil => exact Or.inl ⟨t, ht⟩
      | cons q ps =>
        simp only [List.cons_append, List.cons.injEq] at ht
        exact Or.inr ⟨ps, t, ht.2⟩

/-- C5: `check_page` raises `NistPageError` exactly when the page text
contains the marker string `"Error"` as a contiguous substring, and
otherwise returns with the text passed through unchanged. -/
theorem check_page_error_iff_marker (text : String) :
    (check_page text = .error .nistPageError ↔
      ∃ p t, text.data = p ++ ("Error".data ++ t)) ∧
    (check_page text = .ok text ↔
      ¬ ∃ p t, text.data = p ++ ("Error".data ++ t)) := by
  have hdef : strContainsSub text "Error" = hasSub "Error".data text.data := rfl
  unfold check_page
  rw [hdef, ← hasSub_iff]
  cases h : hasSub "Error".data text.data <;> simp [h]

/-- C1: the claim says `parse_table` yields exactly one output row per data
row.  On a table holding one header row (no data cells) and one five-cell
data row, the source's inner loop appends the row once per kept cell
(nist_lookup.py:75 sits inside the `for cell in cols` loop, and every
appended reference aliases the same list), so the single data row comes out
four times. -/
theorem parse_table_quadruplicates_data_rows :
    parse_table [[], ["10.0", "1.5", "2.5", "junk", "1.2"]] =
      [["10.0", "1.5", "2.5", "1.2"], ["10.0", "1.5", "2.5", "1.2"],
       ["10.0", "1.5", "2.5", "1.2"], ["10.0", "1.5", "2.5", "1.2"]] := rfl

/-- C3: on a text with a `"Nominal density"` line, `get_density` returns
`N_A * density / atomic_weight` from the line's first and last tokens; but
on a text with no such line it does not raise the spec's `ParseError` — the
loop falls through and reading the never-assigned local raises
`UnboundLocalError` (a `NameError`), the unhandled-slip outcome. -/
theorem get_density_value_and_missing_line_fault :
    get_density "junk\n17.0 blah Nominal density foo 2.5\nmore" = .ok (N_A * (5 / 2) / 17) ∧
    get_density "no density line here" = .error .nameError :=
  ⟨by with_unfolding_all rfl, rfl⟩

/-- C4: for a name absent from the material registry and no caller density,
`material_mu` and `material_mu_components` raise the builtin generic
`Warning` (materials.py:57 and materials.py:97), not the typed
`MissingDensityError` the spec prescribes (§7, §9). -/
theorem material_mu_unknown_density_raises_generic_warning :
    ∀ (chem : String → List (String × ℚ)) (am : String → ℚ)
      (mu_elam : String → ℚ → String → ℚ) (energy : ℚ) (kind : String),
      material_mu chem am mu_elam [] "unobtainium" energy none kind =
        .error .warningExc ∧
      material_mu_components chem am mu_elam [] "unobtainium" energy none kind =
        .error .warningExc :=
  fun _ _ _ _ _ => ⟨rfl, rfl⟩

/-- C2: the claim says a zero `beta` yields positive infinity through an
explicit guard.  The source (xraydb_plugin.py:466) divides
`lamb_cm / (4*pi*beta)` with no guard: with a provider whose tabulated `f2`
is zero at the requested energy, `beta` is zero and the scalar division
raises `ZeroDivisionError`. -/
theorem xray_delta_beta_zero_beta_division_fault :
    xray_delta_beta ⟨1, 1, 1, 1⟩
      ⟨fun _ => 0, fun _ => 1, fun _ _ => 0, fun _ _ => 0, fun _ _ => 1, fun _ _ => 1⟩
      chemparseTotal "H" 1 1 false = .error .zeroDivisionError := by
  with_unfolding_all rfl

/-- C6: every row of the parsed table gets, appended after its four cells,
`delta = (r_e/(2*pi)) * n * lambda_cm^2 * f1` and
`beta  = (r_e/(2*pi)) * n * lambda_cm^2 * f2`, where `lambda_cm` is the
row's wavelength times `1e-7` and `n` is the atoms-per-unit-volume value. -/
theorem calculate_coefficients_row_formula (r_e piv n : ℚ) :
    ∀ (table : List Row) (i : ℕ) (row : Row),
      table.get? i = some row →
      (calculate_coefficients r_e piv n table).get? i =
        some [row.energy, row.f1, row.f2, row.wavelength,
          r_e / (2 * piv) * n * (row.wavelength * (1 / (10 : ℚ) ^ 7)) ^ 2 * row.f1,
          r_e / (2 * piv) * n * (row.wavelength * (1 / (10 : ℚ) ^ 7)) ^ 2 * row.f2] := by
  intro table
  induction table with
  | nil => intro i row h; simp at h
  | cons r rest ih =>
    intro i row h
    cases i with
    | zero =>
      simp only [List.get?] at h
      injection h with h
      subst h
      simp only [calculate_coefficients, List.get?, Option.some.injEq,
        List.cons.injEq, and_true, true_and]
      exact ⟨by ring, by ring⟩
    | succ j =>
      simp only [List.get?] at h
      simpa [calculate_coefficients] using ih j row h

/-- Witness for C6 at a concrete one-row table. -/
theorem calculate_coefficients_row_formula_witness :
    (([⟨1, 2, 3, 4⟩] : List Row).get? 0 = some ⟨1, 2, 3, 4⟩) ∧
    (calculate_coefficients 5 6 7 [⟨1, 2, 3, 4⟩]).get? 0 =
      some [1, 2, 3, 4,
        5 / (2 * 6) * 7 * ((4 : ℚ) * (1 / (10 : ℚ) ^ 7)) ^ 2 * 2,
        5 / (2 * 6) * 7 * ((4 : ℚ) * (1 / (10 : ℚ) ^ 7)) ^ 2 * 3] :=
  ⟨rfl, calculate_coefficients_row_formula 5 6 7 [⟨1, 2, 3, 4⟩] 0 ⟨1, 2, 3, 4⟩ rfl⟩

lemma muLoop_spec (am : String → ℚ) (mu_elam : String → ℚ → String → ℚ)
    (energy : ℚ) (kind : String) :
    ∀ (items : List (String × ℚ)) (acc : ℚ × ℚ),
      muLoop am mu_elam energy kind items acc =
        (acc.1 + (items.map (fun p => p.2 * am p.1)).sum,
         acc.2 + (items.map (fun p => p.2 * am p.1 * mu_elam p.1 energy kind)).sum) := by
  intro items
  induction items with
  | nil => intro acc; simp [muLoop]
  | cons p rest ih =>
    intro acc
    obtain ⟨elem, frac⟩ := p
    simp only [muLoop, ih, List.map_cons, List.sum_cons, Prod.mk.injEq]
    constructor <;> ring

/-- C7: on the formula path (name not in the registry) with a given density,
`material_mu` returns `density * (sum of f*mass*mu) / (sum of f*mass)` over
the parsed composition, as the accumulation loop of materials.py:62-67
computes. -/
theorem material_mu_weighted_average
    (chem : String → List (String × ℚ)) (am : String → ℚ)
    (mu_elam : String → ℚ → String → ℚ) (store : List String)
    (name : String) (energy : ℚ) (kind : String) (ρ : ℚ)
    (mats : List (String × String × ℚ))
    (h1 : get_materials store = .ok mats)
    (h2 : assocGet mats (pyLower name) = none)
    (h3 : ((chem name).map (fun p => p.2 * am p.1)).sum ≠ 0) :
    material_mu chem am mu_elam store name energy (some ρ) kind =
      .ok (ρ * ((chem name).map (fun p => p.2 * am p.1 * mu_elam p.1 energy kind)).sum /
        ((chem name).map (fun p => p.2 * am p.1)).sum) := by
  unfold material_mu
  rw [h1]
  simp only [h2, muLoop_spec, zero_add]
  simp [h3]

/-- Witness for C7: one element with unit mass and mu, density 3. -/
theorem material_mu_weighted_average_witness :
    (get_materials ([] : List String) = .ok []) ∧
    material_mu (fun _ => [("H", 1)]) (fun _ => 1) (fun _ _ _ => 1)
      [] "Xy" 1 (some 3) "total" = .ok 3 := by
  refine ⟨rfl, ?_⟩
  have h := material_mu_weighted_average (fun _ => [("H", (1 : ℚ))]) (fun _ => 1)
    (fun _ _ _ => 1) [] "Xy" 1 "total" 3 [] rfl rfl (by with_unfolding_all decide)
  rw [h]
  with_unfolding_all rfl

/-- C10: when the name resolves in the registry, `material_mu` and
`material_mu_components` discard the caller-supplied density and use the
stored `(formula, density)` pair, so the result does not depend on the
density argument at all (materials.py:60, materials.py:100). -/
theorem material_mu_registry_overrides_density
    (chem : String → List (String × ℚ)) (am : String → ℚ)
    (mu_elam : String → ℚ → String → ℚ) (store : List String)
    (name : String) (energy : ℚ) (kind : String)
    (mats : List (String × String × ℚ)) (pr : String × ℚ)
    (h1 : get_materials store = .ok mats)
    (h2 : assocGet mats (pyLower name) = some pr) :
    ∀ d1 d2 : Option ℚ,
      material_mu chem am mu_elam store name energy d1 kind =
        material_mu chem am mu_elam store name energy d2 kind ∧
      material_mu_components chem am mu_elam store name energy d1 kind =
        material_mu_components chem am mu_elam store name energy d2 kind := by
  intro d1 d2
  obtain ⟨f, d⟩ := pr
  unfold material_mu material_mu_components
  rw [h1]
  simp only [h2]
  constructor <;> trivial

/-- Witness for C10: a one-entry registry resolving `WATER`
case-insensitively; caller densities 5 and none give the same outcome. -/
theorem material_mu_registry_overrides_density_witness :
    (get_materials ["water | H2O | 1"] = .ok [("water", ("H2O", 1))]) ∧
    (assocGet [("water", ("H2O", (1 : ℚ)))] (pyLower "WATER") = some ("H2O", 1)) ∧
    (material_mu (fun _ => [("H", 2), ("O", 1)]) (fun _ => 1) (fun _ _ _ => 1)
        ["water | H2O | 1"] "WATER" 1 (some 5) "total" =
      material_mu (fun _ => [("H", 2), ("O", 1)]) (fun _ => 1) (fun _ _ _ => 1)
        ["water | H2O | 1"] "WATER" 1 none "total" ∧
      material_mu_components (fun _ => [("H", 2), ("O", 1)]) (fun _ => 1) (fun _ _ _ => 1)
        ["water | H2O | 1"] "WATER" 1 (some 5) "total" =
      material_mu_components (fun _ => [("H", 2), ("O", 1)]) (fun _ => 1) (fun _ _ _ => 1)
        ["water | H2O | 1"] "WATER" 1 none "total") :=
  ⟨by with_unfolding_all rfl, by with_unfolding_all rfl,
    material_mu_registry_overrides_density _ _ _ _ _ _ _ _ _
      (by with_unfolding_all rfl) (by with_unfolding_all rfl) (some 5) none⟩

/-- Halving the denominator's mass term exactly cancels a doubled numerator;
both sides degenerate to `0` together when the denominator vanishes. -/
lemma double_scale (S c x M : ℚ) :
    2 * S * (c / (2 * x * (2 * M))) = S * (c / (2 * x * M)) := by
  by_cases h : x = 0
  · simp [h]
  by_cases hM : M = 0
  · simp [hM]
  · field_simp
    ring

set_option maxHeartbeats 1000000 in
/-- C8: `xray_delta_beta` on `"H2O"` and on the uniformly doubled formula
`"H4O2"` agree exactly (same delta, beta and attenuation length, and the
same raised error in every degenerate case), for every provider, density and
energy: stoichiometric scaling cancels between the weighted sums and the
total mass. -/
theorem xray_delta_beta_scale_invariance (C : Consts) (p : Provider)
    (density energy : ℚ) (b : Bool) :
    xray_delta_beta C p chemparseTotal "H2O" density energy b =
    xray_delta_beta C p chemparseTotal "H4O2" density energy b := by
  have h2 : chemparseTotal "H2O" = [("H", 2), ("O", 1)] := by with_unfolding_all rfl
  have h4 : chemparseTotal "H4O2" = [("H", 4), ("O", 2)] := by with_unfolding_all rfl
  unfold xray_delta_beta
  rw [h2, h4]
  by_cases he : energy = 0
  · simp [he]
  simp only [he, if_false, List.map_cons, List.map_nil, xdbLoop]
  generalize mkScatterer p "H" energy = sH
  generalize mkScatterer p "O" energy = sO
  by_cases hH : sH.mu_photo = 0
  · simp [hH]
  by_cases hO : sO.mu_photo = 0
  · simp [hH, hO]
  simp only [hH, hO, if_false]
  rw [show (0:ℚ) + 4 * sH.mass + 2 * sO.mass = 2 * (0 + 2 * sH.mass + 1 * sO.mass) from by ring,
      show (0:ℚ) + density * 4 * C.avogadro * sH.f1 + density * 2 * C.avogadro * sO.f1 =
        2 * (0 + density * 2 * C.avogadro * sH.f1 + density * 1 * C.avogadro * sO.f1) from by ring,
      show (0:ℚ) + density * 4 * C.avogadro * sH.f2 + density * 2 * C.avogadro * sO.f2 =
        2 * (0 + density * 2 * C.avogadro * sH.f2 + density * 1 * C.avogadro * sO.f2) from by ring,
      show (0:ℚ) + density * 4 * C.avogadro * sH.f2 * (sH.mu_total / sH.mu_photo)
          + density * 2 * C.avogadro * sO.f2 * (sO.mu_total / sO.mu_photo) =
        2 * (0 + density * 2 * C.avogadro * sH.f2 * (sH.mu_total / sH.mu_photo)
          + density * 1 * C.avogadro * sO.f2 * (sO.mu_total / sO.mu_photo)) from by ring]
  simp only [double_scale]
  by_cases hz : 2 * C.piv * (0 + 2 * sH.mass + 1 * sO.mass) = 0
  · rw [if_pos hz, if_pos (show 2 * C.piv * (2 * (0 + 2 * sH.mass + 1 * sO.mass)) = 0 from by
      linear_combination 2 * hz)]
  · rw [if_neg hz, if_neg (show ¬ 2 * C.piv * (2 * (0 + 2 * sH.mass + 1 * sO.mass)) = 0 from
      fun h => hz (by linear_combination h / 2))]

lemma trimCh_cons_space (l : List Char) : trimCh (' ' :: l) = trimCh l := by
  simp [trimCh, List.dropWhile_cons_of_pos]

lemma trim_stable_parts (l : List Char) (h : trimCh l = l) :
    l.dropWhile Char.isWhitespace = l ∧
    l.reverse.dropWhile Char.isWhitespace = l.reverse := by
  have h1 : l.dropWhile Char.isWhitespace = l := by
    have hlen : (trimCh l).length ≤ (l.dropWhile Char.isWhitespace).length := by
      simp only [trimCh, List.length_reverse]
      exact le_trans ((List.dropWhile_suffix _).length_le) (by simp)
    have hlen2 : (l.dropWhile Char.isWhitespace).length ≤ l.length :=
      (List.dropWhile_suffix _).length_le
    have : l.length ≤ (l.dropWhile Char.isWhitespace).length := by
      conv_lhs => rw [← h]
      exact hlen
    exact (List.dropWhile_suffix _).eq_of_length (le_antisymm hlen2 this)
  refine ⟨h1, ?_⟩
  have := h
  rw [trimCh, h1] at this
  have h2 := congrArg List.reverse this
  simpa using h2

lemma head_not_ws (a : Char) (t : List Char)
    (h : List.dropWhile Char.isWhitespace (a :: t) = a :: t) :
    ¬ a.isWhitespace := by
  intro hws
  rw [List.dropWhile_cons_of_pos hws] at h
  have := congrArg List.length h
  have hle := (@List.dropWhile_suffix _ t Char.isWhitespace).length_le
  simp at this
  omega

lemma trimCh_eq_self (l : List Char)
    (h1 : l.dropWhile Char.isWhitespace = l)
    (h2 : l.reverse.dropWhile Char.isWhitespace = l.reverse) :
    trimCh l = l := by
  rw [trimCh, h1, h2, List.reverse_reverse]

lemma trimCh_append_space (l : List Char) (h : trimCh l = l) :
    trimCh (l ++ [' ']) = l := by
  obtain ⟨h1, h2⟩ := trim_stable_parts l h
  cases l with
  | nil => rfl
  | cons a t =>
    have ha := head_not_ws a t h1
    rw [trimCh]
    rw [show ((a :: t) ++ [' ']) = a :: (t ++ [' ']) from rfl,
      List.dropWhile_cons_of_neg (by simpa using ha)]
    rw [show (a :: (t ++ [' '])).reverse = ' ' :: (a :: t).reverse from by simp,
      List.dropWhile_cons_of_pos (by simp), h2, List.reverse_reverse]

lemma trimCh_space_pad (l : List Char) (h : trimCh l = l) :
    trimCh (' ' :: (l ++ [' '])) = l := by
  rw [trimCh_cons_space, trimCh_append_space l h]

lemma splitOnCh_no_sep (sep : Char) (l : List Char) (h : sep ∉ l) :
    splitOnCh sep l = [l] := by
  induction l with
  | nil => rfl
  | cons c t ih =>
    have hc : ¬ c = sep := fun hc => h (hc ▸ List.mem_cons_self c t)
    have ht : sep ∉ t := fun hm => h (List.mem_cons_of_mem c hm)
    rw [splitOnCh, if_neg hc, ih ht]

lemma splitOnCh_append (sep : Char) (a b : List Char) (h : sep ∉ a) :
    splitOnCh sep (a ++ sep :: b) = a :: splitOnCh sep b := by
  induction a with
  | nil => simp [splitOnCh]
  | cons c t ih =>
    have hc : ¬ c = sep := fun hc => h (hc ▸ List.mem_cons_self c t)
    have ht : sep ∉ t := fun hm => h (List.mem_cons_of_mem c hm)
    rw [List.cons_append, splitOnCh, if_neg hc, ih ht]

lemma getMaterialsAux_append (xs ys : List String) :
    ∀ mat, getMaterialsAux (xs ++ ys) mat =
      match getMaterialsAux xs mat with
      | .error e => .error e
      | .ok m => getMaterialsAux ys m := by
  induction xs with
  | nil => intro mat; rfl
  | cons line rest ih =>
    intro mat
    rw [List.cons_append, getMaterialsAux, getMaterialsAux]
    split
    · split
      · split
        · rfl
        · exact ih _
      · rfl
    · exact ih _

lemma assocGet_append_single (m : List (String × String × ℚ)) (k : String)
    (v : String × ℚ) (k' : String) :
    assocGet (m ++ [(k, v)]) k' = if k = k' then some v else assocGet m k' := by
  simp only [assocGet, List.reverse_append, List.reverse_cons, List.reverse_nil,
    List.nil_append, List.cons_append, List.find?]
  by_cases hk : k = k'
  · simp [hk]
  · simp [hk]

lemma dropWhile_append_of_ne (l m : List Char)
    (h : l.dropWhile Char.isWhitespace = l) (hne : l ≠ []) :
    (l ++ m).dropWhile Char.isWhitespace = l ++ m := by
  cases l with
  | nil => exact absurd rfl hne
  | cons a t =>
    have ha := head_not_ws a t h
    rw [List.cons_append, List.dropWhile_cons_of_neg (by simpa using ha)]

lemma leadsWith_hash (a : Char) (T : List Char) :
    leadsWith ['#'] (a :: T) = ('#' == a) := by
  simp [leadsWith]

/-- Processing the line appended by `material_add` binds the lower-cased
name to the space-stripped formula and the parsed density, provided the
name is nonempty, free of surrounding whitespace, does not start with `#`,
no field contains the `|` separator, and the rendered density parses back. -/
lemma getMaterialsAux_add_line (fmtG : ℚ → String) (name formula : String)
    (den : ℚ) (mat : List (String × String × ℚ))
    (hne : name.data ≠ [])
    (hntrim : trimCh name.data = name.data)
    (hnhash : leadsWith ['#'] name.data = false)
    (hnpipe : '|' ∉ name.data)
    (hftrim : trimCh (removeSpaces formula.data) = removeSpaces formula.data)
    (hfpipe : '|' ∉ formula.data)
    (hdtrim : trimCh (fmtG den).data = (fmtG den).data)
    (hdpipe : '|' ∉ (fmtG den).data)
    (hdrt : parseFloat (fmtG den) = some den) :
    getMaterialsAux [" " ++ name ++ " | " ++ String.mk (removeSpaces formula.data)
        ++ " | " ++ fmtG den] mat =
      .ok (mat ++ [(pyLower name, (String.mk (removeSpaces formula.data), den))]) := by
  have hgne : (fmtG den).data ≠ [] := by
    intro h0
    have : fmtG den = "" := by
      have e : fmtG den = (⟨(fmtG den).data⟩ : String) := rfl
      rw [e, h0]
    rw [this] at hdrt
    exact Option.noConfusion hdrt
  have hdata : (" " ++ name ++ " | " ++ String.mk (removeSpaces formula.data)
      ++ " | " ++ fmtG den).data =
      ' ' :: ((name.data ++ [' ']) ++ '|' :: ((' ' :: (removeSpaces formula.data ++ [' ']))
        ++ '|' :: (' ' :: (fmtG den).data))) := by
    simp [String.data_append]
  have hR : trimCh (' ' :: ((name.data ++ [' ']) ++ '|' :: ((' ' :: (removeSpaces formula.data ++ [' ']))
      ++ '|' :: (' ' :: (fmtG den).data)))) =
      (name.data ++ [' ']) ++ '|' :: ((' ' :: (removeSpaces formula.data ++ [' ']))
        ++ '|' :: (' ' :: (fmtG den).data)) := by
    rw [trimCh_cons_space]
    apply trimCh_eq_self
    · have : (name.data ++ [' ']) ++ '|' :: ((' ' :: (removeSpaces formula.data ++ [' ']))
          ++ '|' :: (' ' :: (fmtG den).data)) =
          name.data ++ ([' '] ++ '|' :: ((' ' :: (removeSpaces formula.data ++ [' ']))
          ++ '|' :: (' ' :: (fmtG den).data))) := by simp
      rw [this]
      exact dropWhile_append_of_ne _ _ (trim_stable_parts _ hntrim).1 hne
    · have : ((name.data ++ [' ']) ++ '|' :: ((' ' :: (removeSpaces formula.data ++ [' ']))
          ++ '|' :: (' ' :: (fmtG den).data))).reverse =
          (fmtG den).data.reverse ++
            (' ' :: '|' :: (' ' :: (removeSpaces formula.data ++ [' '])).reverse
              ++ '|' :: ' ' :: name.data.reverse) := by
        simp
      rw [this]
      refine dropWhile_append_of_ne _ _ (trim_stable_parts _ hdtrim).2 ?_
      simpa using hgne
  obtain ⟨a, nt, hname⟩ : ∃ a nt, name.data = a :: nt := by
    cases h : name.data with
    | nil => exact absurd h hne
    | cons a nt => exact ⟨a, nt, rfl⟩
  have hsplit : splitOnCh '|' ((name.data ++ [' ']) ++ '|' :: ((' ' :: (removeSpaces formula.data ++ [' ']))
      ++ '|' :: (' ' :: (fmtG den).data))) =
      [name.data ++ [' '], ' ' :: (removeSpaces formula.data ++ [' ']), ' ' :: (fmtG den).data] := by
    rw [splitOnCh_append _ _ _ (by
      intro hmem
      rcases List.mem_append.mp hmem with h | h
      · exact hnpipe h
      · simp at h)]
    rw [splitOnCh_append _ _ _ (by
      intro hmem
      rcases List.mem_cons.mp hmem with h | h
      · exact absurd h (by decide)
      · rcases List.mem_append.mp h with h | h
        · exact hfpipe (List.mem_of_mem_filter h)
        · simp at h)]
    rw [splitOnCh_no_sep _ _ (by
      intro hmem
      rcases List.mem_cons.mp hmem with h | h
      · exact absurd h (by decide)
      · exact hdpipe h)]
  have hcondP : (decide (2 < ((name.data ++ [' ']) ++ '|' :: ((' ' :: (removeSpaces formula.data ++ [' ']))
      ++ '|' :: (' ' :: (fmtG den).data))).length) &&
      !leadsWith ['#'] ((name.data ++ [' ']) ++ '|' :: ((' ' :: (removeSpaces formula.data ++ [' ']))
      ++ '|' :: (' ' :: (fmtG den).data)))) = true := by
    rw [Bool.and_eq_true, Bool.not_eq_true']
    constructor
    · rw [decide_eq_true_eq]
      simp only [List.length_append, List.length_cons]
      omega
    · rw [hname]
      simp only [List.cons_append]
      rw [leadsWith_hash]
      rw [hname] at hnhash
      rw [leadsWith_hash] at hnhash
      exact hnhash
  simp only [getMaterialsAux, hdata, hR, hcondP, if_true, hsplit]
  have e1 : trimCh (' ' :: (fmtG den).data) = (fmtG den).data := by
    rw [trimCh_cons_space, hdtrim]
  have e2 : (⟨(fmtG den).data⟩ : String) = fmtG den := rfl
  rw [e1, e2, hdrt]
  have e3 : trimCh (name.data ++ [' ']) = name.data := trimCh_append_space _ hntrim
  have e4 : trimCh (' ' :: (removeSpaces formula.data ++ [' '])) = removeSpaces formula.data :=
    trimCh_space_pad _ hftrim
  rw [e3, e4]
  have e5 : (⟨name.data⟩ : String) = name := rfl
  have e6 : removeSpaces (removeSpaces formula.data) = removeSpaces formula.data := by
    simp [removeSpaces, List.filter_filter]
  rw [e5, e6]

/-- C9 (counterexample): the claim promises `add` then `get` succeeds for
every name.  For a name starting with `#`, the stored line starts with `#`
after stripping, so `get_materials` skips it as a comment
(materials.py:19) and the lookup yields `none` instead of the stored pair. -/
theorem material_add_hash_name_unretrievable :
    (material_add (fun _ => "1") [] "#water" "H2O" 1).bind
        (fun st => material_get st "#WATER") = .ok none ∧
    (material_add (fun _ => "1") [] "#water" "H2O" 1).bind
        (fun st => material_get st "#WATER") ≠ .ok (some ("H2O", 1)) := by
  with_unfolding_all decide

/-- C9 (amended): `add(name, formula, density)` followed by `get` of any
case variant of `name` returns the space-stripped formula and the density,
provided the name is nonempty without surrounding whitespace and does not
begin with `#`, neither name, formula nor the rendered density contains the
`|` field separator or a newline, and the textual rendering of the density
parses back to it; and `get` of any name the registry does not bind yields
`none`, not an error. -/
theorem material_add_then_get (fmtG : ℚ → String) (store : List String)
    (name name' formula : String) (den : ℚ) (mats : List (String × String × ℚ))
    (hst : get_materials store = .ok mats)
    (hne : name.data ≠ [])
    (hntrim : trimCh name.data = name.data)
    (hnhash : leadsWith ['#'] name.data = false)
    (hnpipe : '|' ∉ name.data) (hnnl : '\n' ∉ name.data)
    (hftrim : trimCh (removeSpaces formula.data) = removeSpaces formula.data)
    (hfpipe : '|' ∉ formula.data) (hfnl : '\n' ∉ formula.data)
    (hdtrim : trimCh (fmtG den).data = (fmtG den).data)
    (hdpipe : '|' ∉ (fmtG den).data) (hdnl : '\n' ∉ (fmtG den).data)
    (hdrt : parseFloat (fmtG den) = some den)
    (hcase : pyLower name' = pyLower name) :
    (material_add fmtG store name formula den).bind (fun st => material_get st name') =
      .ok (some (String.mk (removeSpaces formula.data), den)) ∧
    ∀ other : String, assocGet mats (pyLower other) = none →
      material_get store other = .ok none := by
  have hline := fun mat => getMaterialsAux_add_line fmtG name formula den mat
    hne hntrim hnhash hnpipe hftrim hfpipe hdtrim hdpipe hdrt
  have hnew : get_materials ((if store.isEmpty then defaultHeader else store) ++
      [" " ++ name ++ " | " ++ String.mk (removeSpaces formula.data) ++ " | " ++ fmtG den]) =
      .ok (mats ++ [(pyLower name, (String.mk (removeSpaces formula.data), den))]) := by
    unfold get_materials
    rw [getMaterialsAux_append]
    by_cases hemp : store.isEmpty = true
    · have hmats : mats = [] := by
        have h0 : store = [] := List.isEmpty_iff.mp hemp
        rw [h0] at hst
        exact (Except.ok.inj hst).symm
      rw [if_pos hemp]
      have hdh : getMaterialsAux defaultHeader [] = .ok [] := rfl
      rw [hdh, hmats]
      exact hline []
    · rw [if_neg hemp]
      have hst' : getMaterialsAux store [] = .ok mats := hst
      rw [hst']
      exact hline mats
  constructor
  · have hadd : material_add fmtG store name formula den =
        .ok ((if store.isEmpty then defaultHeader else store) ++
          [" " ++ name ++ " | " ++ String.mk (removeSpaces formula.data) ++ " | " ++ fmtG den]) := by
      unfold material_add
      rw [hst]
    rw [hadd]
    show material_get ((if store.isEmpty then defaultHeader else store) ++
      [" " ++ name ++ " | " ++ String.mk (removeSpaces formula.data) ++ " | " ++ fmtG den]) name' =
      .ok (some (String.mk (removeSpaces formula.data), den))
    unfold material_get
    rw [hnew]
    show Except.ok (assocGet
      (mats ++ [(pyLower name, (String.mk (removeSpaces formula.data), den))]) (pyLower name')) =
      .ok (some (String.mk (removeSpaces formula.data), den))
    rw [assocGet_append_single, hcase]
    simp
  · intro other hother
    unfold material_get
    rw [hst]
    show Except.ok (assocGet mats (pyLower other)) = .ok none
    rw [hother]

/-- Witness for C9: adding `Water`/`H2O`/1 to a store holding only a comment
line, then looking up `WATER`, returns the pair; `lead` is unbound and
yields `none`. -/
theorem material_add_then_get_witness :
    (material_add (fun _ => "1") ["# db"] "Water" "H2O" 1).bind
        (fun st => material_get st "WATER") =
      .ok (some (String.mk (removeSpaces "H2O".data), 1)) ∧
    material_get ["# db"] "lead" = .ok none := by
  have H := material_add_then_get (fun _ => "1") ["# db"] "Water" "WATER" "H2O" 1 []
    rfl (by decide) rfl rfl (by decide) (by decide) rfl (by decide) (by decide)
    rfl (by decide) (by decide) (by with_unfolding_all rfl) rfl
  exact ⟨H.1, H.2 "lead" rfl⟩

end NistLookup
